import Mathlib

/-!
Verification of the in-memory event retention store of `claude-pod`
(`internal/event/memory.go`), a fixed-capacity ring buffer with an
id → slot index, against its natural-language specification.

Modelling conventions (shallow embedding of the Go code):
* `uuid.UUID` is modelled as `Nat` (only equality on ids is used);
* `json.RawMessage` and `time.Time` are modelled as `String` and `Nat`
  (only carried around, never inspected);
* the Go map `index` is modelled as a function `Nat → Option Nat`
  (Go map lookup returning `(v, ok)` becomes `Option`);
* the Go slice `buf` of fixed length `cap` is modelled as a function
  `Nat → Event`; only positions `< cap` are ever read or written;
* Go `int` values crossing the API (capacity, limit, offset) are kept
  as `Int`; internal non-negative quantities (count, head, positions)
  are `Nat`.  In `List`, Go computes `(head - 1 - i + cap) % cap` with
  `0 ≤ head < cap` and `0 ≤ i < count ≤ cap`, so the dividend is
  non-negative and the expression equals the `Nat` expression
  `(head + cap - 1 - i) % cap` used here;
* each Go method that returns an `error` is modelled as returning the
  new state paired with `Option StoreError` (mutating methods), or an
  `Except StoreError` result (read-only methods).
-/

/-- `types.EventStatus` lifecycle constant `received`. -/
def eventStatusReceived : String := "received"

/-- `types.EventStatus` lifecycle constant `forwarded`. -/
def eventStatusForwarded : String := "forwarded"

/-- `types.EventStatus` lifecycle constant `failed`. -/
def eventStatusFailed : String := "failed"

/-- `types.EventStatus` lifecycle constant `completed`. -/
def eventStatusCompleted : String := "completed"

/-- `types.Event`: id, channel id, raw body, headers, timestamp, status.
`EventStatus` is a string type in the source, so `status : String`. -/
structure Event where
  id : Nat
  channelID : String
  rawBody : String
  headers : List (String × String)
  timestamp : Nat
  status : String
deriving DecidableEq, Repr

/-- The Go zero value `types.Event{}`. -/
def zeroEvent : Event :=
  { id := 0, channelID := "", rawBody := "", headers := [], timestamp := 0, status := "" }

/-- The two error kinds of the store: `ErrNotFound` and `ErrInvalidCapacity`. -/
inductive StoreError where
  | notFound
  | invalidCapacity
deriving DecidableEq, Repr

/-- `MemoryStore`: ring buffer `buf`, id → position `index`, capacity
`cap`, current size `count`, next write position `head`.  The mutex only
serialises access and has no sequential meaning, so it is not modelled. -/
structure MemoryStore where
  buf : Nat → Event
  index : Nat → Option Nat
  cap : Nat
  count : Nat
  head : Nat

/-- The store built by `NewMemoryStore` on the success path: zeroed
buffer, empty index, `count = head = 0`. -/
def emptyStore (capacity : Nat) : MemoryStore :=
  { buf := fun _ => zeroEvent, index := fun _ => none,
    cap := capacity, count := 0, head := 0 }

/-- `NewMemoryStore(capacity)`: rejects `capacity <= 0` with
`ErrInvalidCapacity`, otherwise returns a fresh store. -/
def newMemoryStore (capacity : Int) : Except StoreError MemoryStore :=
  if capacity ≤ 0 then .error .invalidCapacity
  else .ok (emptyStore capacity.toNat)

/-- `MemoryStore.Save`: when full, deletes the index entry of the slot
about to be overwritten; writes the event at `head`, points the index at
`head`, advances `head` modulo `cap`, increments `count` if below `cap`.
Always returns a `nil` error. -/
def MemoryStore.save (s : MemoryStore) (event : Event) : MemoryStore × Option StoreError :=
  let index1 : Nat → Option Nat :=
    if s.count = s.cap then
      fun k => if k = (s.buf s.head).id then none else s.index k
    else s.index
  ({ buf := fun j => if j = s.head then event else s.buf j,
     index := fun k => if k = event.id then some s.head else index1 k,
     cap := s.cap,
     count := if s.count < s.cap then s.count + 1 else s.count,
     head := (s.head + 1) % s.cap },
   none)

/-- `MemoryStore.Get`: index lookup, `ErrNotFound` when absent. -/
def MemoryStore.get (s : MemoryStore) (id : Nat) : Except StoreError Event :=
  match s.index id with
  | none => .error .notFound
  | some pos => .ok (s.buf pos)

/-- The loop body of `MemoryStore.List`, with `remaining = count - i`
as the structural fuel: for each `i`, visit slot
`(head - 1 - i + cap) % cap`, skip while `skipped < offset`, append,
and stop once `result` reaches `limit` elements. -/
def listLoop (buf : Nat → Event) (cap head limit off : Nat) :
    Nat → Nat → Nat → List Event → List Event
  | 0, _, _, result => result
  | remaining + 1, i, skipped, result =>
    let pos := (head + cap - 1 - i) % cap
    if skipped < off then
      listLoop buf cap head limit off remaining (i + 1) (skipped + 1) result
    else
      let result2 := result ++ [buf pos]
      if result2.length = limit then result2
      else listLoop buf cap head limit off remaining (i + 1) skipped result2

/-- `MemoryStore.List(limit, offset)`: `limit <= 0` returns the empty
list with a `nil` error; negative `offset` is clamped to `0`; otherwise
the backward walk `listLoop` over `count` slots.  Always a `nil` error. -/
def MemoryStore.list (s : MemoryStore) (limit offset : Int) :
    List Event × Option StoreError :=
  if limit ≤ 0 then ([], none)
  else
    let off := (if offset < 0 then 0 else offset).toNat
    (listLoop s.buf s.cap s.head limit.toNat off s.count 0 0 [], none)

/-- `MemoryStore.UpdateStatus`: index lookup; `ErrNotFound` and an
unchanged store when absent, otherwise mutate `buf[pos].Status` in
place. -/
def MemoryStore.updateStatus (s : MemoryStore) (id : Nat) (status : String) :
    MemoryStore × Option StoreError :=
  match s.index id with
  | none => (s, some .notFound)
  | some pos =>
    ({ s with buf := fun j => if j = pos then { s.buf pos with status := status } else s.buf j },
     none)

/-- `MemoryStore.Count`: returns the `count` field. -/
def MemoryStore.Count (s : MemoryStore) : Nat := s.count

/-- Folding `Save` over a list of events (a finite sequence of calls). -/
def MemoryStore.saveAll (s : MemoryStore) (evs : List Event) : MemoryStore :=
  evs.foldl (fun t e => (t.save e).1) s

/-- The newest-first sequence the store logically holds: the i-th most
recent record sits at slot `(head - 1 - i + cap) % cap`, for
`i < count`. -/
def MemoryStore.newestFirst (s : MemoryStore) : List Event :=
  (List.range s.count).map (fun i => s.buf ((s.head + s.cap - 1 - i) % s.cap))

example :
    ((emptyStore 3).saveAll
      [{ zeroEvent with id := 1 }, { zeroEvent with id := 2 }]).Count = 2 := by
  decide

example :
    ((emptyStore 2).saveAll
      [{ zeroEvent with id := 1 }, { zeroEvent with id := 2 },
       { zeroEvent with id := 3 }]).get 1 = .error .notFound := by
  rfl

example :
    ((emptyStore 2).saveAll
      [{ zeroEvent with id := 1 }, { zeroEvent with id := 2 },
       { zeroEvent with id := 3 }]).get 3 = .ok { zeroEvent with id := 3 } := by
  rfl

example :
    (((emptyStore 2).saveAll
      [{ zeroEvent with id := 1 }, { zeroEvent with id := 2 },
       { zeroEvent with id := 3 }]).list 5 0).1 =
      [{ zeroEvent with id := 3 }, { zeroEvent with id := 2 }] := by
  rfl

/-! Concrete events and stores used by the witnesses below. -/

/-- A concrete event with id 1. -/
def evW1 : Event :=
  { id := 1, channelID := "slack", rawBody := "a", headers := [("k", "v")],
    timestamp := 10, status := eventStatusReceived }

/-- A concrete event with id 2. -/
def evW2 : Event :=
  { id := 2, channelID := "github", rawBody := "b", headers := [],
    timestamp := 20, status := eventStatusReceived }

/-- A concrete event with id 3. -/
def evW3 : Event :=
  { id := 3, channelID := "slack", rawBody := "c", headers := [],
    timestamp := 30, status := eventStatusForwarded }

/-- A second concrete event carrying the same id as `evW1`. -/
def evW1b : Event :=
  { id := 1, channelID := "slack", rawBody := "d", headers := [],
    timestamp := 40, status := eventStatusReceived }

/-- C7: `New(capacity)` fails with `InvalidCapacity` exactly when
`capacity <= 0`; for `capacity > 0` it succeeds with a store whose
`Count()` is 0. -/
theorem newMemoryStore_capacity_validation (capacity : Int) :
    (capacity ≤ 0 → newMemoryStore capacity = .error .invalidCapacity) ∧
    (0 < capacity →
      newMemoryStore capacity = .ok (emptyStore capacity.toNat) ∧
      (emptyStore capacity.toNat).Count = 0) := by
  refine ⟨fun h => ?_, fun h => ⟨?_, rfl⟩⟩
  · simp [newMemoryStore, h]
  · simp [newMemoryStore, not_le.mpr h]

/-- Witness for C7 at capacities `-1` and `5`. -/
theorem newMemoryStore_capacity_validation_witness :
    newMemoryStore (-1) = .error .invalidCapacity ∧
    newMemoryStore 5 = .ok (emptyStore 5) ∧ (emptyStore 5).Count = 0 :=
  ⟨(newMemoryStore_capacity_validation (-1)).1 (by decide),
   ((newMemoryStore_capacity_validation 5).2 (by decide)).1,
   ((newMemoryStore_capacity_validation 5).2 (by decide)).2⟩

/-- C8: `Save` never returns an error, and on a store satisfying the
constructed-store invariant `count ≤ cap` it increments `Count()` by
one unless the store is full, in which case `Count()` stays `cap`. -/
theorem save_no_error_and_count (s : MemoryStore) (ev : Event) (h : s.count ≤ s.cap) :
    (s.save ev).2 = none ∧
    (s.save ev).1.Count = if s.count = s.cap then s.cap else s.count + 1 := by
  refine ⟨rfl, ?_⟩
  simp only [MemoryStore.save, MemoryStore.Count]
  split_ifs <;> omega

/-- Witness for C8 on a store of capacity 2 holding one record. -/
theorem save_no_error_and_count_witness :
    (((emptyStore 2).saveAll [evW1]).save evW2).2 = none ∧
    (((emptyStore 2).saveAll [evW1]).save evW2).1.Count = 2 :=
  ⟨(save_no_error_and_count ((emptyStore 2).saveAll [evW1]) evW2 (by decide)).1,
   (save_no_error_and_count ((emptyStore 2).saveAll [evW1]) evW2 (by decide)).2⟩

/-- C3: saving a record `r` whose id is not in the index into a non-full
store makes `Get(r.id)` return exactly `r` (all fields equal). -/
theorem save_get_roundtrip (s : MemoryStore) (r : Event)
    (hcount : s.count < s.cap) (hid : s.index r.id = none) :
    (s.save r).1.get r.id = .ok r := by
  simp [MemoryStore.save, MemoryStore.get]

/-- Witness for C3: save `evW2` into a capacity-2 store holding `evW1`. -/
theorem save_get_roundtrip_witness :
    (((emptyStore 2).saveAll [evW1]).save evW2).1.get evW2.id = .ok evW2 :=
  save_get_roundtrip ((emptyStore 2).saveAll [evW1]) evW2 (by decide) rfl

/-- C9: saving an event whose id `x` is already retained at slot `p`
re-points the index entry for `x` at the newly written slot (`head`),
so `Get(x)` returns the new record; when `p` is not the slot being
written, the old record stays in the ring at `p`, no longer reachable
through `x`'s index entry. -/
theorem save_duplicate_id_overwrites_index (s : MemoryStore) (x p : Nat) (ev : Event)
    (hret : s.index x = some p) (hid : ev.id = x) :
    (s.save ev).1.index x = some s.head ∧
    (s.save ev).1.get x = .ok ev ∧
    (p ≠ s.head → (s.save ev).1.buf p = s.buf p ∧ (s.save ev).1.index x ≠ some p) := by
  subst hid
  refine ⟨?_, ?_, fun hp => ⟨?_, ?_⟩⟩
  · simp [MemoryStore.save]
  · simp [MemoryStore.save, MemoryStore.get]
  · simp [MemoryStore.save, hp]
  · simp [MemoryStore.save]
    omega

/-- Witness for C9: duplicate save of id 1 into a capacity-3 store
holding records with ids 1 and 2. -/
theorem save_duplicate_id_overwrites_index_witness :
    (((emptyStore 3).saveAll [evW1, evW2]).save evW1b).1.index 1 = some 2 ∧
    (((emptyStore 3).saveAll [evW1, evW2]).save evW1b).1.get 1 = .ok evW1b ∧
    (((emptyStore 3).saveAll [evW1, evW2]).save evW1b).1.buf 0 = evW1 ∧
    (((emptyStore 3).saveAll [evW1, evW2]).save evW1b).1.index 1 ≠ some 0 :=
  ⟨(save_duplicate_id_overwrites_index ((emptyStore 3).saveAll [evW1, evW2]) 1 0 evW1b rfl rfl).1,
   (save_duplicate_id_overwrites_index ((emptyStore 3).saveAll [evW1, evW2]) 1 0 evW1b rfl rfl).2.1,
   ((save_duplicate_id_overwrites_index ((emptyStore 3).saveAll [evW1, evW2]) 1 0 evW1b rfl
      rfl).2.2 (by decide)).1,
   ((save_duplicate_id_overwrites_index ((emptyStore 3).saveAll [evW1, evW2]) 1 0 evW1b rfl
      rfl).2.2 (by decide)).2⟩

/-- C6: when `id` is at slot `pos`, `UpdateStatus(id, st)` succeeds,
`Get(id)` afterwards returns the old record with only `status` changed
to `st`; capacity, count, head, the whole index, and every other buffer
slot are unchanged, and any record retained at a different slot reads
back unchanged.  When `id` is absent, `UpdateStatus` returns `NotFound`
and the store is untouched. -/
theorem updateStatus_visibility_and_frame (s : MemoryStore) (id : Nat) (st : String) :
    (∀ pos, s.index id = some pos →
      (s.updateStatus id st).2 = none ∧
      s.get id = .ok (s.buf pos) ∧
      (s.updateStatus id st).1.get id = .ok { s.buf pos with status := st } ∧
      (s.updateStatus id st).1.cap = s.cap ∧
      (s.updateStatus id st).1.count = s.count ∧
      (s.updateStatus id st).1.head = s.head ∧
      (s.updateStatus id st).1.index = s.index ∧
      (∀ j, j ≠ pos → (s.updateStatus id st).1.buf j = s.buf j) ∧
      (∀ id2 pos2, s.index id2 = some pos2 → pos2 ≠ pos →
        (s.updateStatus id st).1.get id2 = s.get id2)) ∧
    (s.index id = none → s.updateStatus id st = (s, some .notFound)) := by
  constructor
  · intro pos h
    refine ⟨?_, ?_, ?_, ?_, ?_, ?_, ?_, ?_, ?_⟩
    · simp [MemoryStore.updateStatus, h]
    · simp [MemoryStore.get, h]
    · simp [MemoryStore.updateStatus, MemoryStore.get, h]
    · simp [MemoryStore.updateStatus, h]
    · simp [MemoryStore.updateStatus, h]
    · simp [MemoryStore.updateStatus, h]
    · simp [MemoryStore.updateStatus, h]
    · intro j hj
      simp [MemoryStore.updateStatus, h, hj]
    · intro id2 pos2 h2 hne
      simp [MemoryStore.updateStatus, MemoryStore.get, h, h2, hne]
  · intro h
    simp [MemoryStore.updateStatus, h]

/-- Witness for C6: update id 1's status to `completed` in a capacity-3
store holding ids 1 and 2, and look up the absent id 9. -/
theorem updateStatus_visibility_and_frame_witness :
    (((emptyStore 3).saveAll [evW1, evW2]).updateStatus 1 eventStatusCompleted).1.get 1 =
      .ok { evW1 with status := eventStatusCompleted } ∧
    (((emptyStore 3).saveAll [evW1, evW2]).updateStatus 1 eventStatusCompleted).1.get 2 =
      .ok evW2 ∧
    ((emptyStore 3).saveAll [evW1, evW2]).updateStatus 9 eventStatusCompleted =
      ((emptyStore 3).saveAll [evW1, evW2], some .notFound) :=
  ⟨((updateStatus_visibility_and_frame ((emptyStore 3).saveAll [evW1, evW2]) 1
      eventStatusCompleted).1 0 rfl).2.2.1,
   ((updateStatus_visibility_and_frame ((emptyStore 3).saveAll [evW1, evW2]) 1
      eventStatusCompleted).1 0 rfl).2.2.2.2.2.2.2.2 2 1 rfl (by decide),
   (updateStatus_visibility_and_frame ((emptyStore 3).saveAll [evW1, evW2]) 9
      eventStatusCompleted).2 rfl⟩

/-- C10: `UpdateStatus` validates nothing: for a retained id and an
arbitrary status string (lifecycle constant or not), it succeeds and
`Get` reads the new status back. -/
theorem updateStatus_no_validation (s : MemoryStore) (id : Nat) (st : String) (pos : Nat)
    (h : s.index id = some pos) :
    (s.updateStatus id st).2 = none ∧
    (s.updateStatus id st).1.get id = .ok { s.buf pos with status := st } := by
  constructor
  · simp [MemoryStore.updateStatus, h]
  · simp [MemoryStore.updateStatus, MemoryStore.get, h]

/-- Witness for C10 with the non-lifecycle status string `"bogus"`. -/
theorem updateStatus_no_validation_witness :
    (((emptyStore 2).saveAll [evW1]).updateStatus 1 "bogus").2 = none ∧
    (((emptyStore 2).saveAll [evW1]).updateStatus 1 "bogus").1.get 1 =
      .ok { evW1 with status := "bogus" } :=
  updateStatus_no_validation ((emptyStore 2).saveAll [evW1]) 1 "bogus" 0 rfl

/-- Shifting the start of the backward walk peels off its first slot. -/
theorem range_map_shift (buf : Nat → Event) (cap head r i : Nat) :
    (List.range (r + 1)).map (fun j => buf ((head + cap - 1 - (i + j)) % cap)) =
      buf ((head + cap - 1 - i) % cap) ::
        (List.range r).map (fun j => buf ((head + cap - 1 - (i + 1 + j)) % cap)) := by
  rw [List.range_succ_eq_map, List.map_cons, List.map_map]
  congr 1
  congr 1
  funext j
  simp only [Function.comp_apply]
  have hj : i + Nat.succ j = i + 1 + j := by omega
  rw [hj]

/-- What the `List` loop computes: starting at step `i` with `skipped`
already skipped and `result` accumulated, it appends the drop/take of
the remaining backward walk. -/
theorem listLoop_eq_drop_take (buf : Nat → Event) (cap head limit off : Nat)
    (remaining : Nat) :
    ∀ i skipped result, skipped ≤ off → result.length < limit →
      listLoop buf cap head limit off remaining i skipped result =
        result ++ (((List.range remaining).map
            (fun j => buf ((head + cap - 1 - (i + j)) % cap))).drop
              (off - skipped)).take (limit - result.length) := by
  induction remaining with
  | zero =>
    intro i skipped result hsk hlen
    simp [listLoop]
  | succ remaining ih =>
    intro i skipped result hsk hlen
    rw [listLoop, range_map_shift]
    by_cases hskip : skipped < off
    · rw [if_pos hskip, ih (i + 1) (skipped + 1) result (by omega) hlen]
      have hdrop : off - skipped = (off - (skipped + 1)) + 1 := by omega
      rw [hdrop, List.drop_succ_cons]
    · rw [if_neg hskip]
      have hsk0 : off - skipped = 0 := by omega
      have htake : limit - result.length = (limit - (result.length + 1)) + 1 := by omega
      rw [hsk0, List.drop_zero, htake, List.take_succ_cons]
      by_cases hfull : (result ++ [buf ((head + cap - 1 - i) % cap)]).length = limit
      · rw [if_pos hfull]
        have h0 : limit - (result.length + 1) = 0 := by
          simp only [List.length_append, List.length_cons, List.length_nil] at hfull
          omega
        rw [h0, List.take_zero]
      · rw [if_neg hfull]
        rw [ih (i + 1) skipped (result ++ [buf ((head + cap - 1 - i) % cap)]) hsk
          (by
            have hL : (result ++ [buf ((head + cap - 1 - i) % cap)]).length =
                result.length + 1 := by simp
            omega)]
        simp [hsk0, List.length_append]

/-- The backward walk visits exactly `count` slots. -/
theorem newestFirst_length (s : MemoryStore) : s.newestFirst.length = s.count := by
  simp [MemoryStore.newestFirst]

/-- For positive `limit`, `List` returns the drop-then-take of the
newest-first walk, with a negative offset clamped to zero. -/
theorem list_eq_drop_take (s : MemoryStore) (limit offset : Int) (hl : 0 < limit) :
    (s.list limit offset).1 =
      ((s.newestFirst).drop (if offset < 0 then 0 else offset).toNat).take limit.toNat := by
  simp only [MemoryStore.list]
  rw [if_neg (by omega)]
  rw [listLoop_eq_drop_take s.buf s.cap s.head limit.toNat
    ((if offset < 0 then 0 else offset)).toNat s.count 0 0 [] (Nat.zero_le _)
    (by simp; omega)]
  simp [MemoryStore.newestFirst]

/-- C5: `List(limit, offset)` returns empty without error for
`limit <= 0`; treats negative `offset` as zero; returns empty when
`offset` is at least the current size; otherwise returns the contiguous
slice of the newest-first sequence starting at `offset` of length at
most `limit`; and never returns an error. -/
theorem list_pagination (s : MemoryStore) (limit offset : Int) :
    (limit ≤ 0 → s.list limit offset = ([], none)) ∧
    (offset < 0 → s.list limit offset = s.list limit 0) ∧
    ((s.count : Int) ≤ offset → (s.list limit offset).1 = []) ∧
    (0 < limit → 0 ≤ offset →
      (s.list limit offset).1 = ((s.newestFirst).drop offset.toNat).take limit.toNat) ∧
    (s.list limit offset).1.length ≤ limit.toNat ∧
    (s.list limit offset).2 = none := by
  refine ⟨fun h => ?_, fun h => ?_, fun h => ?_, fun hl ho => ?_, ?_, ?_⟩
  · simp [MemoryStore.list, h]
  · by_cases hl : limit ≤ 0
    · simp [MemoryStore.list, hl]
    · simp [MemoryStore.list, hl, h]
  · by_cases hl : limit ≤ 0
    · simp [MemoryStore.list, hl]
    · rw [list_eq_drop_take s limit offset (by omega)]
      have hlen : s.newestFirst.length ≤ (if offset < 0 then 0 else offset).toNat := by
        rw [newestFirst_length]
        omega
      rw [List.drop_eq_nil_of_le hlen, List.take_nil]
  · rw [list_eq_drop_take s limit offset hl, if_neg (by omega)]
  · by_cases hl : limit ≤ 0
    · simp [MemoryStore.list, hl]
    · rw [list_eq_drop_take s limit offset (by omega)]
      exact List.length_take_le _ _
  · by_cases hl : limit ≤ 0 <;> simp [MemoryStore.list, hl]

/-- Witness for C5 on a capacity-2 store that has seen three saves
(retains ids 2 and 3), at limits -1, 5, 1 and offsets 0, -2, 7, 1. -/
theorem list_pagination_witness :
    ((emptyStore 2).saveAll [evW1, evW2, evW3]).list (-1) 0 = ([], none) ∧
    ((emptyStore 2).saveAll [evW1, evW2, evW3]).list 5 (-2) =
      ((emptyStore 2).saveAll [evW1, evW2, evW3]).list 5 0 ∧
    (((emptyStore 2).saveAll [evW1, evW2, evW3]).list 5 7).1 = [] ∧
    (((emptyStore 2).saveAll [evW1, evW2, evW3]).list 1 1).1 =
      ((((emptyStore 2).saveAll [evW1, evW2, evW3]).newestFirst).drop 1).take 1 :=
  ⟨(list_pagination ((emptyStore 2).saveAll [evW1, evW2, evW3]) (-1) 0).1 (by decide),
   (list_pagination ((emptyStore 2).saveAll [evW1, evW2, evW3]) 5 (-2)).2.1 (by decide),
   (list_pagination ((emptyStore 2).saveAll [evW1, evW2, evW3]) 5 7).2.2.1 (by decide),
   (list_pagination ((emptyStore 2).saveAll [evW1, evW2, evW3]) 1 1).2.2.2.1 (by decide)
     (by decide)⟩

/-- `Save` keeps the capacity. -/
theorem save_cap (s : MemoryStore) (e : Event) : (s.save e).1.cap = s.cap := rfl

/-- `Save` increments `count` up to `cap`. -/
theorem save_count (s : MemoryStore) (e : Event) :
    (s.save e).1.count = if s.count < s.cap then s.count + 1 else s.count := rfl

/-- `Save` advances the write cursor modulo `cap`. -/
theorem save_head (s : MemoryStore) (e : Event) :
    (s.save e).1.head = (s.head + 1) % s.cap := rfl

/-- `Save` writes the event at slot `head` and keeps other slots. -/
theorem save_buf_apply (s : MemoryStore) (e : Event) (j : Nat) :
    (s.save e).1.buf j = if j = s.head then e else s.buf j := rfl

/-- `Save` points the index at `head` for the new id; when full it first
deletes the entry of the slot being overwritten. -/
theorem save_index_apply (s : MemoryStore) (e : Event) (k : Nat) :
    (s.save e).1.index k =
      if k = e.id then some s.head
      else if s.count = s.cap then
        if k = (s.buf s.head).id then none else s.index k
      else s.index k := by
  by_cases h : s.count = s.cap <;> simp [MemoryStore.save, h]

/-- Representation invariant: the store reached from a fresh store of
capacity `c` by saving `evs` (pairwise-distinct ids).  Slot `i % c`
holds `evs[i]` for each of the last `c` saves; the index maps exactly
the ids of those saves, and no other id. -/
structure StoreRep (c : Nat) (evs : List Event) (s : MemoryStore) : Prop where
  cap_eq : s.cap = c
  count_eq : s.count = min evs.length c
  head_eq : s.head = evs.length % c
  buf_eq : ∀ i (h : i < evs.length), evs.length ≤ i + c → s.buf (i % c) = evs[i]
  index_live : ∀ i (h : i < evs.length), evs.length ≤ i + c →
    s.index (evs[i]).id = some (i % c)
  index_dead : ∀ i (h : i < evs.length), i + c < evs.length →
    s.index (evs[i]).id = none
  index_fresh : ∀ x, (∀ i (h : i < evs.length), (evs[i]).id ≠ x) → s.index x = none

/-- The fresh store satisfies the invariant for the empty history. -/
theorem rep_empty (c : Nat) : StoreRep c [] (emptyStore c) := by
  refine ⟨rfl, by simp [emptyStore], by simp [emptyStore], ?_, ?_, ?_, ?_⟩
  · intro i h
    simp at h
  · intro i h
    simp at h
  · intro i h
    simp at h
  · intro x _
    rfl

/-- `Save` preserves the representation invariant when the new event's
id keeps the history pairwise-distinct. -/
theorem rep_save (c : Nat) (hc : 1 ≤ c) (evs : List Event) (e : Event) (s : MemoryStore)
    (hrep : StoreRep c evs s) (hnd : ((evs ++ [e]).map Event.id).Nodup) :
    StoreRep c (evs ++ [e]) (s.save e).1 := by
  obtain ⟨hcap, hcount, hhead, hbuf, hlive, hdead, hfresh⟩ := hrep
  have hndApp : (evs.map Event.id ++ [e.id]).Nodup := by simpa using hnd
  rw [List.nodup_append] at hndApp
  have hndL : (evs.map Event.id).Nodup := hndApp.1
  have hnotmem : e.id ∉ evs.map Event.id := fun hm => hndApp.2.2 hm (by simp)
  have hne_e : ∀ i (h : i < evs.length), (evs[i]).id ≠ e.id := by
    intro i h heq
    exact hnotmem (List.mem_map.mpr ⟨evs[i], List.getElem_mem h, heq⟩)
  have hinj : ∀ i j (hi : i < evs.length) (hj : j < evs.length),
      (evs[i]).id = (evs[j]).id → i = j := by
    intro i j hi hj hEq
    have hi2 : i < (evs.map Event.id).length := by simpa using hi
    have hj2 : j < (evs.map Event.id).length := by simpa using hj
    have hmapEq : (evs.map Event.id)[i] = (evs.map Event.id)[j] := by
      simpa [List.getElem_map] using hEq
    exact hndL.getElem_inj_iff.mp hmapEq
  have hlen1 : (evs ++ [e]).length = evs.length + 1 := by simp
  refine ⟨?_, ?_, ?_, ?_, ?_, ?_, ?_⟩
  · rw [save_cap]
    exact hcap
  · rw [save_count, hcount, hcap, hlen1]
    split_ifs <;> omega
  · rw [save_head, hhead, hcap, hlen1, Nat.mod_add_mod]
  · intro i h hwin
    have h2 : i < evs.length + 1 := by simpa using h
    have hwin2 : evs.length + 1 ≤ i + c := by simpa using hwin
    rw [save_buf_apply]
    rcases Nat.lt_or_ge i evs.length with hi | hi
    · have hne : i % c ≠ s.head := by
        rw [hhead]
        intro hmod
        have hdvd : c ∣ evs.length - i := (Nat.modEq_iff_dvd' hi.le).mp hmod
        have hpos : 0 < evs.length - i := by omega
        have := Nat.le_of_dvd hpos hdvd
        omega
      rw [if_neg hne, List.getElem_append_left hi]
      exact hbuf i hi (by omega)
    · have hieq : i = evs.length := by omega
      subst hieq
      rw [hhead]
      simp
  · intro i h hwin
    have h2 : i < evs.length + 1 := by simpa using h
    have hwin2 : evs.length + 1 ≤ i + c := by simpa using hwin
    rw [save_index_apply]
    rcases Nat.lt_or_ge i evs.length with hi | hi
    · rw [List.getElem_append_left hi, if_neg (hne_e i hi)]
      by_cases hfull : s.count = s.cap
      · have hcle : c ≤ evs.length := by
          rw [hcount, hcap] at hfull
          omega
        have hnc_lt : evs.length - c < evs.length := by omega
        have hmodeq : (evs.length - c) % c = evs.length % c := by
          conv_rhs => rw [← Nat.sub_add_cancel hcle]
          rw [Nat.add_mod_right]
        have hsb : s.buf s.head = evs[evs.length - c] := by
          rw [hhead, ← hmodeq]
          exact hbuf _ hnc_lt (by omega)
        have hne2 : (evs[i]).id ≠ (s.buf s.head).id := by
          rw [hsb]
          intro hEq
          have := hinj i (evs.length - c) hi hnc_lt hEq
          omega
        rw [if_pos hfull, if_neg hne2]
        exact hlive i hi (by omega)
      · rw [if_neg hfull]
        exact hlive i hi (by omega)
    · have hieq : i = evs.length := by omega
      subst hieq
      rw [hhead]
      simp
  · intro i h hdd
    have h2 : i < evs.length + 1 := by simpa using h
    have hdd2 : i + c < evs.length + 1 := by simpa using hdd
    have hi : i < evs.length := by omega
    rw [save_index_apply, List.getElem_append_left hi, if_neg (hne_e i hi)]
    by_cases hfull : s.count = s.cap
    · have hcle : c ≤ evs.length := by
        rw [hcount, hcap] at hfull
        omega
      have hnc_lt : evs.length - c < evs.length := by omega
      have hmodeq : (evs.length - c) % c = evs.length % c := by
        conv_rhs => rw [← Nat.sub_add_cancel hcle]
        rw [Nat.add_mod_right]
      have hsb : s.buf s.head = evs[evs.length - c] := by
        rw [hhead, ← hmodeq]
        exact hbuf _ hnc_lt (by omega)
      rw [if_pos hfull]
      rcases Nat.lt_or_ge (i + c) evs.length with hlt | hge
      · have hne2 : (evs[i]).id ≠ (s.buf s.head).id := by
          rw [hsb]
          intro hEq
          have := hinj i (evs.length - c) hi hnc_lt hEq
          omega
        rw [if_neg hne2]
        exact hdead i hi hlt
      · have hieq2 : i = evs.length - c := by omega
        have heq2 : (evs[i]).id = (s.buf s.head).id := by
          rw [hsb]
          subst hieq2
          rfl
        rw [if_pos heq2]
    · exfalso
      rw [hcount, hcap] at hfull
      omega
  · intro x hx
    have hxe : e.id ≠ x := by
      have h3 := hx evs.length (by simp)
      simpa using h3
    have hxold : ∀ i (h : i < evs.length), (evs[i]).id ≠ x := by
      intro i hi
      have h3 := hx i (by rw [hlen1]; omega)
      rwa [List.getElem_append_left hi] at h3
    rw [save_index_apply, if_neg (Ne.symm hxe)]
    by_cases hfull : s.count = s.cap
    · rw [if_pos hfull]
      by_cases hdel : x = (s.buf s.head).id
      · rw [if_pos hdel]
      · rw [if_neg hdel]
        exact hfresh x hxold
    · rw [if_neg hfull]
      exact hfresh x hxold

/-- Saving a pairwise-distinct history into a fresh store of positive
capacity reaches a state satisfying the representation invariant. -/
theorem rep_saveAll (c : Nat) (hc : 1 ≤ c) (evs : List Event)
    (hnd : (evs.map Event.id).Nodup) :
    StoreRep c evs ((emptyStore c).saveAll evs) := by
  induction evs using List.reverseRecOn with
  | nil => exact rep_empty c
  | append_singleton evs e ih =>
    have hndApp : (evs.map Event.id ++ [e.id]).Nodup := by simpa using hnd
    rw [List.nodup_append] at hndApp
    have hstep : (emptyStore c).saveAll (evs ++ [e]) =
        (((emptyStore c).saveAll evs).save e).1 := by
      simp [MemoryStore.saveAll, List.foldl_append]
    rw [hstep]
    exact rep_save c hc evs e _ (ih hndApp.1) hnd

/-- C1: saving `c + k` records with pairwise-distinct ids (`c ≥ 1`,
`k ≥ 1`) into a fresh store of capacity `c` leaves exactly the last `c`
records retrievable: `Get` returns each of the last `c` records intact,
returns `NotFound` for each of the first `k` evicted ids (their index
entries are fully removed, no stale value), and returns `NotFound` for
any id never saved. -/
theorem eviction_order_oldest_first (c k : Nat) (hc : 1 ≤ c) (hk : 1 ≤ k)
    (evs : List Event) (hlen : evs.length = c + k)
    (hnd : (evs.map Event.id).Nodup) :
    (∀ i (h : i < evs.length), k ≤ i →
      ((emptyStore c).saveAll evs).get (evs[i]).id = .ok evs[i]) ∧
    (∀ i (h : i < evs.length), i < k →
      ((emptyStore c).saveAll evs).get (evs[i]).id = .error .notFound) ∧
    (∀ x, x ∉ evs.map Event.id →
      ((emptyStore c).saveAll evs).get x = .error .notFound) := by
  obtain ⟨hcap, hcount, hhead, hbuf, hlive, hdead, hfresh⟩ := rep_saveAll c hc evs hnd
  refine ⟨?_, ?_, ?_⟩
  · intro i h hki
    have h1 := hlive i h (by omega)
    have h2 := hbuf i h (by omega)
    simp [MemoryStore.get, h1, h2]
  · intro i h hik
    have h1 := hdead i h (by omega)
    simp [MemoryStore.get, h1]
  · intro x hx
    have h1 : ((emptyStore c).saveAll evs).index x = none := by
      refine hfresh x ?_
      intro i hi hEq
      exact hx (hEq ▸ List.mem_map.mpr ⟨evs[i], List.getElem_mem hi, rfl⟩)
    simp [MemoryStore.get, h1]

/-- Witness for C1 with capacity 1 and k = 1: id 2 survives, id 1 is
evicted, id 99 was never saved. -/
theorem eviction_order_oldest_first_witness :
    ((emptyStore 1).saveAll [evW1, evW2]).get evW2.id = .ok evW2 ∧
    ((emptyStore 1).saveAll [evW1, evW2]).get evW1.id = .error .notFound ∧
    ((emptyStore 1).saveAll [evW1, evW2]).get 99 = .error .notFound :=
  ⟨(eviction_order_oldest_first 1 1 (by decide) (by decide) [evW1, evW2] (by decide)
      (by decide)).1 1 (by decide) (by decide),
   (eviction_order_oldest_first 1 1 (by decide) (by decide) [evW1, evW2] (by decide)
      (by decide)).2.1 0 (by decide) (by decide),
   (eviction_order_oldest_first 1 1 (by decide) (by decide) [evW1, evW2] (by decide)
      (by decide)).2.2 99 (by decide)⟩

/-- C2: on a store holding a pairwise-distinct history `r1..rN` with
`N ≤ capacity`, `List(n, 0)` with `n ≥ N` returns exactly
`rN, rN-1, ..., r1`. -/
theorem list_newest_first_order (c : Nat) (hc : 1 ≤ c) (evs : List Event)
    (hlen : evs.length ≤ c) (hnd : (evs.map Event.id).Nodup)
    (n : Int) (hn : (evs.length : Int) ≤ n) :
    (((emptyStore c).saveAll evs).list n 0).1 = evs.reverse := by
  obtain ⟨hcap, hcount, hhead, hbuf, hlive, hdead, hfresh⟩ := rep_saveAll c hc evs hnd
  by_cases hn0 : n ≤ 0
  · have hevs : evs = [] := by
      have hlen0 : evs.length = 0 := by omega
      exact List.length_eq_zero.mp hlen0
    subst hevs
    simp [MemoryStore.list, hn0]
  · have hnf : ((emptyStore c).saveAll evs).newestFirst = evs.reverse := by
      apply List.ext_getElem
      · rw [newestFirst_length, hcount, List.length_reverse]
        omega
      · intro i h1 h2
        have hiN : i < evs.length := by
          rw [newestFirst_length, hcount] at h1
          omega
        have hpos_lt : evs.length - 1 - i < c := by omega
        have harith : (evs.length % c + c - 1 - i) % c = evs.length - 1 - i := by
          rcases Nat.lt_or_ge evs.length c with hlt | hge
          · rw [Nat.mod_eq_of_lt hlt]
            have hsplit : evs.length + c - 1 - i = (evs.length - 1 - i) + c := by omega
            rw [hsplit, Nat.add_mod_right, Nat.mod_eq_of_lt hpos_lt]
          · have hlc : evs.length = c := by omega
            rw [hlc, Nat.mod_self]
            have hz : 0 + c - 1 - i = c - 1 - i := by omega
            rw [hz, Nat.mod_eq_of_lt (by omega)]
        simp only [MemoryStore.newestFirst, List.getElem_map, List.getElem_range,
          List.getElem_reverse]
        rw [hhead, hcap, harith]
        have hb := hbuf (evs.length - 1 - i) (by omega) (by omega)
        rw [Nat.mod_eq_of_lt hpos_lt] at hb
        exact hb
    rw [list_eq_drop_take _ n 0 (by omega), hnf]
    have hoff : ((if (0 : Int) < 0 then 0 else 0) : Int).toNat = 0 := by norm_num
    rw [hoff, List.drop_zero]
    apply List.take_of_length_le
    rw [List.length_reverse]
    omega

/-- Witness for C2 on capacity 2 with two saves and limit 5. -/
theorem list_newest_first_order_witness :
    (((emptyStore 2).saveAll [evW1, evW2]).list 5 0).1 = [evW2, evW1] :=
  list_newest_first_order 2 (by decide) [evW1, evW2] (by decide) (by decide) 5 (by decide)

/-- The count and capacity after folding `Save` over any event list
(ids unrestricted): each save adds one record, capped at capacity. -/
theorem count_saveAll (evs : List Event) :
    ∀ s : MemoryStore, s.count ≤ s.cap →
      (s.saveAll evs).count = min (s.count + evs.length) s.cap ∧
      (s.saveAll evs).cap = s.cap := by
  induction evs with
  | nil =>
    intro s h
    have h0 : MemoryStore.saveAll s [] = s := rfl
    rw [h0]
    refine ⟨?_, rfl⟩
    simp only [List.length_nil]
    omega
  | cons e t ih =>
    intro s h
    have hstep : MemoryStore.saveAll s (e :: t) = MemoryStore.saveAll (s.save e).1 t := rfl
    rw [hstep]
    obtain ⟨h1, h2⟩ := ih (s.save e).1
      (by rw [save_count, save_cap]; split_ifs <;> omega)
    constructor
    · rw [h1, save_count, save_cap]
      simp only [List.length_cons]
      split_ifs <;> omega
    · rw [h2, save_cap]

/-- C4: after any finite sequence of saves (ids unrestricted) on a
constructed store, `0 ≤ Count() ≤ capacity` (the lower bound holds by
the `Nat` type) and `Count()` equals the number of currently
non-evicted records: each save occupies one slot and eviction happens
only when full, leaving exactly `min (number of saves) capacity`. -/
theorem count_bound (capacity : Int) (s0 : MemoryStore)
    (hnew : newMemoryStore capacity = .ok s0) (evs : List Event) :
    (s0.saveAll evs).Count ≤ capacity.toNat ∧
    (s0.saveAll evs).Count = min evs.length capacity.toNat := by
  have hs0 : s0 = emptyStore capacity.toNat := by
    by_cases hcap : capacity ≤ 0
    · simp only [newMemoryStore, if_pos hcap] at hnew
      cases hnew
    · simp only [newMemoryStore, if_neg hcap] at hnew
      cases hnew
      rfl
  subst hs0
  obtain ⟨h1, h2⟩ := count_saveAll evs (emptyStore capacity.toNat) (by simp [emptyStore])
  simp only [MemoryStore.Count]
  rw [h1]
  simp only [emptyStore]
  omega

/-- Witness for C4: three saves into a capacity-2 store leave count 2. -/
theorem count_bound_witness :
    ((emptyStore 2).saveAll [evW1, evW2, evW3]).Count ≤ 2 ∧
    ((emptyStore 2).saveAll [evW1, evW2, evW3]).Count = 2 :=
  ⟨(count_bound 2 (emptyStore 2) rfl [evW1, evW2, evW3]).1,
   (count_bound 2 (emptyStore 2) rfl [evW1, evW2, evW3]).2⟩
